import Mathlib

/-!
Verification of the read-path performance layer of a MERN blog platform:
the Redis response-cache middleware (`server/middleware/cache.js`), the
trending aggregation (`server/models/Blog.js`), and the paginated query
construction (`server/controllers/blogController.js`).

Strings are embedded as `List Char`; JavaScript template concatenation is
list append.  Redis TTL expiry is owned by the backend, so an expired entry
is modelled as an absent entry.  Timestamps are integers (days).
-/

/-- Coerce a string literal to its character list. -/
def cstr (s : String) : List Char := s.data

/-- Authenticated requester, as exposed on `req.user` by the auth middleware
(`id` and `role` fields read by `generateCacheKey`). -/
structure UserInfo where
  id : List Char
  role : List Char
  deriving DecidableEq

/-- The part of an Express request read by the cache middleware:
`req.originalUrl` (path plus query string, verbatim) and `req.user`. -/
structure Request where
  originalUrl : List Char
  user : Option UserInfo
  deriving DecidableEq

/-- `generateCacheKey` from `server/middleware/cache.js` (lines 79–86):
returns the template string `prefix:userRole:userId:url` where `url` is
`req.originalUrl` taken verbatim, `userId` is `req.user.id` or the string
`anonymous`, and `userRole` is `req.user.role` or `guest`. -/
def generateCacheKey (req : Request) (pfx : List Char) : List Char :=
  let userId := match req.user with
    | some u => u.id
    | none => cstr "anonymous"
  let userRole := match req.user with
    | some u => u.role
    | none => cstr "guest"
  pfx ++ cstr ":" ++ userRole ++ cstr ":" ++ userId ++ cstr ":" ++ req.originalUrl

/-- Redis `KEYS` glob matching, restricted to the constructs the
middleware's patterns use: `*` (any sequence), `?` (any one character) and
literal characters.  The patterns built by `clearRouteCache` contain only
`*`, `:` and URL characters. -/
def globMatch : List Char → List Char → Bool
  | [], str => str.isEmpty
  | '*' :: ps, str => str.tails.any (fun suf => globMatch ps suf)
  | '?' :: ps, str =>
    match str with
    | [] => false
    | _ :: cs => globMatch ps cs
  | p :: ps, str =>
    match str with
    | [] => false
    | c :: cs => (p == c) && globMatch ps cs

/-- A cache store: association list from key to the cached serialized
payload.  An entry being present models a fresh (unexpired) Redis key. -/
abbrev CacheStore := List (List Char × List Char)

/-- Redis `GET`: the value of the first entry with the given key. -/
def cacheGet (store : CacheStore) (key : List Char) : Option (List Char) :=
  match store with
  | [] => none
  | kv :: rest => if kv.1 = key then some kv.2 else cacheGet rest key

/-- `clearCache` from `server/middleware/cache.js` (lines 103–122):
`KEYS pattern` followed by `DEL` of every match. -/
def clearCache (store : CacheStore) (pat : List Char) : CacheStore :=
  store.filter (fun kv => ¬ globMatch pat kv.1)

/-- `clearRouteCache` from `server/middleware/cache.js` (lines 126–141):
for each route it deletes the keys matching the pattern
`cache:*:*:<route>*` — note the hard-coded `cache` namespace. -/
def clearRouteCache (store : CacheStore) (routes : List (List Char)) : CacheStore :=
  routes.foldl (fun st route => clearCache st (cstr "cache:*:*:" ++ route ++ cstr "*")) store

/-- Outcome behaviour of the Redis client for a single request, as seen by
the `cache` middleware: whether `get`/`setEx` raise, and the stored value
(`none` models a miss or an expired key). -/
structure RedisConn where
  getRaises : Bool
  setRaises : Bool
  stored : Option (List Char)
  deriving DecidableEq

/-- `redisClient.get(cacheKey)`: raises or returns the stored value. -/
def redisGet (c : RedisConn) : Except Unit (Option (List Char)) :=
  if c.getRaises then Except.error () else Except.ok c.stored

/-- `redisClient.setEx(key, ttl, payload)`: raises or succeeds. -/
def redisSetEx (c : RedisConn) (_v : List Char) : Except Unit Unit :=
  if c.setRaises then Except.error () else Except.ok ()

/-- `cacheResponse` from `server/middleware/cache.js` (lines 91–98): the
`setEx` call is wrapped in try/catch, so a failure is logged and swallowed
and the function always returns normally. -/
def cacheResponse (c : RedisConn) (v : List Char) : Unit :=
  match redisSetEx c v with
  | Except.ok _ => ()
  | Except.error _ => ()

/-- The read path of the `cache` middleware from `server/middleware/cache.js`
(lines 8–74) for a GET request: if no Redis client is available it calls
`next()` (the downstream handler, whose response payload is `produce`); a
`get` error is caught and falls through to `next()`; a hit returns the
cached payload; a miss runs the handler and caches its payload via
`cacheResponse`.  The `Except` result records whether an error escapes to
the caller — by construction of the source's try/catch it never does. -/
def cacheMiddleware (client : Option RedisConn) (produce : List Char) :
    Except Unit (List Char) :=
  match client with
  | none => Except.ok produce
  | some c =>
    match redisGet c with
    | Except.error _ => Except.ok produce
    | Except.ok (some v) => Except.ok v
    | Except.ok none =>
      let _ := cacheResponse c produce
      Except.ok produce

/-- Publication status of a blog document (`status` enum in
`server/models/Blog.js`). -/
inductive BlogStatus
  | draft
  | published
  | archived
  deriving DecidableEq

/-- The fields of a blog document used by the layer under study.  `likes`
holds the liking users' ids, `comments` the comment bodies (the aggregation
only takes `$size` of both).  `publishedAt` is `none` while unset. -/
structure BlogRec where
  id : List Char
  author : List Char
  title : List Char
  content : List Char
  excerpt : List Char
  category : List Char
  tags : List (List Char)
  status : BlogStatus
  views : Nat
  likes : List (List Char)
  comments : List (List Char)
  publishedAt : Option Int
  deriving DecidableEq

/-- `findById`: first document with the given id. -/
def findBlog (blogs : List BlogRec) (id : List Char) : Option BlogRec :=
  match blogs with
  | [] => none
  | b :: rest => if b.id = id then some b else findBlog rest id

/-- `findByIdAndUpdate(id, \x7b $inc: \x7b views: 1 \x7d \x7d, \x7b new: true \x7d)`:
increments the first matching document's view counter in place and returns
the updated document, or leaves the store unchanged and returns `none`. -/
def incViewsById (blogs : List BlogRec) (id : List Char) :
    List BlogRec × Option BlogRec :=
  match blogs with
  | [] => ([], none)
  | b :: rest =>
    if b.id = id then
      ({ b with views := b.views + 1 } :: rest, some { b with views := b.views + 1 })
    else
      (b :: (incViewsById rest id).1, (incViewsById rest id).2)

/-- Response of the single-blog read endpoint: the 404 body or the 200 body
carrying the blog document. -/
inductive BlogResp
  | notFound
  | ok (b : BlogRec)
  deriving DecidableEq

/-- `getBlogById` from `server/controllers/blogController.js`
(lines 131–160): it first runs `findByIdAndUpdate` with `$inc: views`
(so the increment happens before any visibility check), responds 404 when
no document matches, responds 404 when the document is not published and
the requester is missing or is not the author, and otherwise responds 200
with the (already incremented) document. -/
def getBlogById (blogs : List BlogRec) (id : List Char) (user : Option UserInfo) :
    List BlogRec × BlogResp :=
  let r := incViewsById blogs id
  match r.2 with
  | none => (r.1, BlogResp.notFound)
  | some blog =>
    let notOwner : Bool :=
      match user with
      | none => true
      | some u => decide (blog.author ≠ u.id)
    if decide (blog.status ≠ BlogStatus.published) && notOwner then
      (r.1, BlogResp.notFound)
    else
      (r.1, BlogResp.ok blog)

/-- State reached after running the `GET /api/blogs/:id` route
(`router.get('/:id', optionalAuth, cacheBlog, getBlogById)` in
`server/routes/blogs.js`). -/
structure RouteOutcome where
  cacheStore : List (List Char × BlogResp)
  blogs : List BlogRec
  resp : BlogResp
  deriving DecidableEq

/-- Lookup in the typed response cache used by `runBlogByIdRoute`. -/
def respCacheGet (store : List (List Char × BlogResp)) (key : List Char) :
    Option BlogResp :=
  match store with
  | [] => none
  | kv :: rest => if kv.1 = key then some kv.2 else respCacheGet rest key

/-- The `GET /api/blogs/:id` pipeline: the `cacheBlog` middleware (prefix
`blog`) in front of `getBlogById`.  When Redis is unavailable the handler
runs uncached; on a fresh cached entry the parsed payload is returned at
once and `next()` is never called, so the handler does not run and the blog
store is untouched; on a miss the handler runs, its response is cached, and
the updated blog store is kept. -/
def runBlogByIdRoute (redisUp : Bool) (cacheStore : List (List Char × BlogResp))
    (blogs : List BlogRec) (req : Request) (id : List Char) : RouteOutcome :=
  if ¬ redisUp then
    let (blogs', r) := getBlogById blogs id req.user
    ⟨cacheStore, blogs', r⟩
  else
    let key := generateCacheKey req (cstr "blog")
    match respCacheGet cacheStore key with
    | some v => ⟨cacheStore, blogs, v⟩
    | none =>
      let (blogs', r) := getBlogById blogs id req.user
      ⟨(key, r) :: cacheStore, blogs', r⟩

/-- The `$match` stage of `findTrending` (`server/models/Blog.js`,
lines 194–246): `status: 'published'` and `publishedAt: \x7b $gte: daysAgo \x7d`
where `daysAgo = now - timeframe` days.  A document whose `publishedAt` is
unset never satisfies `$gte`. -/
def trendingQualifies (timeframe : Nat) (now : Int) (b : BlogRec) : Bool :=
  decide (b.status = BlogStatus.published) &&
    match b.publishedAt with
    | some t => decide (now - (timeframe : Int) ≤ t)
    | none => false

/-- A document after the `$addFields` stage: the original fields plus
`likesCount`, `commentsCount` and `trendingScore`. -/
structure ScoredBlog where
  blog : BlogRec
  likesCount : Nat
  commentsCount : Nat
  trendingScore : Nat
  deriving DecidableEq

/-- The `$addFields` stage: `likesCount = $size likes`,
`commentsCount = $size comments`,
`trendingScore = views + $size likes * 5 + $size comments * 10`. -/
def addTrendingFields (b : BlogRec) : ScoredBlog :=
  { blog := b
    likesCount := b.likes.length
    commentsCount := b.comments.length
    trendingScore := b.views + b.likes.length * 5 + b.comments.length * 10 }

/-- Insertion step of the `$sort: \x7b trendingScore: -1 \x7d` stage: the sort
specification names no secondary key, so the embedding sorts by
`trendingScore` alone; ties keep their prior relative order (stable
insertion). -/
def insertByScore (x : ScoredBlog) : List ScoredBlog → List ScoredBlog
  | [] => [x]
  | y :: ys =>
    if y.trendingScore ≤ x.trendingScore then x :: y :: ys
    else y :: insertByScore x ys

/-- The `$sort: \x7b trendingScore: -1 \x7d` stage: descending by score, with no
tie-break key. -/
def sortByScoreDesc : List ScoredBlog → List ScoredBlog
  | [] => []
  | x :: xs => insertByScore x (sortByScoreDesc xs)

/-- `findTrending(limit, timeframe)` from `server/models/Blog.js`
(lines 194–246): `$match` on status and window, `$addFields` with the
score, `$sort` descending on the score alone, `$limit`.  The trailing
`$lookup`/`$unwind` author join only reshapes the `author` field (which is
required by the schema) and is not modelled. -/
def findTrending (blogs : List BlogRec) (lim timeframe : Nat) (now : Int) :
    List ScoredBlog :=
  (sortByScoreDesc ((blogs.filter (trendingQualifies timeframe now)).map
    addTrendingFields)).take lim

/-- Pagination block of the `getBlogs` response
(`server/controllers/blogController.js`, lines 69–87). -/
structure PaginationInfo where
  currentPage : Int
  totalPages : Nat
  totalBlogs : Nat
  hasNextPage : Bool
  hasPrevPage : Bool
  limit : Nat
  deriving DecidableEq

/-- `Math.ceil(total / limitNum)` for natural operands with `limitNum > 0`. -/
def jsCeil (total limitNum : Nat) : Nat :=
  (total + limitNum - 1) / limitNum

/-- Pagination metadata computed by `getBlogs`
(`server/controllers/blogController.js`, lines 69–87):
`totalPages = Math.ceil(total / limitNum)`, `hasNextPage = page <
totalPages`, `hasPrevPage = page > 1`. -/
def blogsPagination (total limitNum : Nat) (page : Int) : PaginationInfo :=
  let totalPages := jsCeil total limitNum
  { currentPage := page
    totalPages := totalPages
    totalBlogs := total
    hasNextPage := decide (page < (totalPages : Int))
    hasPrevPage := decide (1 < page)
    limit := limitNum }

/-- The skip/limit part of the store query built by `getBlogs`
(`server/controllers/blogController.js`, lines 50–56):
`skip = (parseInt(page) - 1) * parseInt(limit)` and the parsed `limit`,
passed to `.skip()`/`.limit()` with no clamping. -/
structure BlogsQueryWindow where
  skip : Int
  lim : Int
  deriving DecidableEq

/-- Builds the skip/limit window exactly as `getBlogs` does. -/
def buildBlogsQueryWindow (page lim : Int) : BlogsQueryWindow :=
  { skip := (page - 1) * lim, lim := lim }

/-- The characters escaped by `getBlogs`'s search sanitizer
(`server/controllers/blogController.js`, line 40):
the class `[.*+?^$\x7b\x7d()|[\]\\]`. -/
def regexMeta : List Char :=
  ['.', '*', '+', '?', '^', '$', Char.ofNat 123, Char.ofNat 125,
   '(', ')', '|', '[', ']', '\\']

/-- `String.prototype.trim`: strip leading and trailing whitespace. -/
def trimStr (s : List Char) : List Char :=
  ((s.dropWhile Char.isWhitespace).reverse.dropWhile Char.isWhitespace).reverse

/-- `search.trim().replace(/[.*+?^$\x7b\x7d()|[\]\\]/g, '\\$&')`: every
metacharacter is preceded by a backslash. -/
def escapeRegex : List Char → List Char
  | [] => []
  | c :: cs =>
    if c ∈ regexMeta then '\\' :: c :: escapeRegex cs
    else c :: escapeRegex cs

/-- Interpreter for the patterns `new RegExp(pattern, 'i')` receives from
the sanitizer: a pattern consisting solely of literal atoms (a plain
character, or a backslash-escaped metacharacter) denotes the literal
character sequence; `none` models a pattern that the regex engine would
either reject (e.g. `c++`, a quantifier with nothing to repeat) or
interpret through a metacharacter rather than literally. -/
def lexLit : Bool → List Char → Option (List Char)
  | false, [] => some []
  | true, [] => none
  | false, c :: rest =>
    if c = '\\' then lexLit true rest
    else if c ∈ regexMeta then none
    else
      match lexLit false rest with
      | some cs => some (c :: cs)
      | none => none
  | true, d :: rest =>
    if d ∈ regexMeta then
      match lexLit false rest with
      | some cs => some (d :: cs)
      | none => none
    else none

/-- Entry point of the literal-pattern interpreter (no pending escape). -/
def lexLiteral (pat : List Char) : Option (List Char) :=
  lexLit false pat

/-- `regex.test(text)` for a literal pattern under the `'i'` flag:
case-folded substring containment. -/
def literalIMatch (lits text : List Char) : Bool :=
  decide (List.IsInfix (lits.map Char.toLower) (text.map Char.toLower))

/-- The observable behaviour of the `searchRegex` built by `getBlogs`
(`server/controllers/blogController.js`, lines 38–48) against one field:
build the escaped pattern from the trimmed term, reject it if it is not a
pure-literal pattern (a thrown `SyntaxError` or metacharacter semantics),
otherwise test case-insensitively. -/
def searchRegexTest (term text : List Char) : Bool :=
  match lexLiteral (escapeRegex (trimStr term)) with
  | some lits => literalIMatch lits text
  | none => false

/-- The `$or` filter `getBlogs` builds for a search term: the regex is
tested against `title`, `content`, `excerpt`, each entry of `tags`
(`$in: [searchRegex]`), and `category`. -/
def blogMatchesSearch (term : List Char) (b : BlogRec) : Bool :=
  searchRegexTest term b.title || searchRegexTest term b.content ||
    searchRegexTest term b.excerpt || b.tags.any (searchRegexTest term) ||
    searchRegexTest term b.category

/-- Split a character list at every occurrence of `sep` (the separators are
dropped). -/
def splitOnChar (sep : Char) : List Char → List (List Char)
  | [] => [[]]
  | c :: cs =>
    match splitOnChar sep cs with
    | [] => [[]]
    | grp :: rest => if c = sep then [] :: grp :: rest else (c :: grp) :: rest

/-- Route part of a URL: everything before the first `?`. -/
def urlPath (url : List Char) : List Char :=
  url.takeWhile (fun c => c ≠ '?')

/-- Query string of a URL: everything after the first `?`. -/
def urlQuery (url : List Char) : List Char :=
  (url.dropWhile (fun c => c ≠ '?')).drop 1

/-- Modelled from the spec: the set of query parameters of a URL, the
`name=value` fragments of the query string, order-irrelevant when compared
as a multiset.  Used only to state what "same normalized query parameters"
means; `generateCacheKey` itself never parses the query string. -/
def urlParams (url : List Char) : List (List Char) :=
  if urlQuery url = [] then [] else splitOnChar '&' (urlQuery url)

/-- Sample published blog A of the spec's trending example: 100 views, no
likes or comments, published at day 0. -/
def trendA : BlogRec :=
  { id := cstr "A", author := cstr "alice", title := cstr "A title",
    content := cstr "A content", excerpt := cstr "A excerpt",
    category := cstr "general", tags := [], status := BlogStatus.published,
    views := 100, likes := [], comments := [], publishedAt := some 0 }

/-- Sample published blog B of the spec's trending example: 10 likes and 5
comments (score 100), published more recently than A, at day 5. -/
def trendB : BlogRec :=
  { id := cstr "B", author := cstr "bob", title := cstr "B title",
    content := cstr "B content", excerpt := cstr "B excerpt",
    category := cstr "general", tags := [], status := BlogStatus.published,
    views := 0, likes := List.replicate 10 (cstr "u"),
    comments := List.replicate 5 (cstr "c"), publishedAt := some 5 }

/-- Sample draft blog used for the `getBlogById` visibility path. -/
def draftBlog : BlogRec :=
  { id := cstr "D", author := cstr "alice", title := cstr "D title",
    content := cstr "D content", excerpt := cstr "D excerpt",
    category := cstr "general", tags := [cstr "tech"], status := BlogStatus.draft,
    views := 3, likes := [], comments := [], publishedAt := none }

/-- C1 (code bug): after an anonymous `GET /api/blogs` response is cached —
under the key `blogs:guest:anonymous:/api/blogs` that `cacheBlogList`
derives — the invalidation `createBlog` performs,
`clearRouteCache(['/api/blogs', '/api/blogs/trending'])`, deletes nothing:
its patterns are rooted at the hard-coded namespace `cache` while every
read cache writes under `blogs`/`blog`/`trending`.  The purged-key set is
empty, the stale entry survives, and the next read through the `cache`
middleware returns the stale payload instead of invoking the producer. -/
theorem createBlog_invalidation_leaves_stale_list_entry :
    let req : Request := { originalUrl := cstr "/api/blogs", user := none }
    let key := generateCacheKey req (cstr "blogs")
    let store : CacheStore := [(key, cstr "stale-list-payload")]
    let store' := clearRouteCache store [cstr "/api/blogs", cstr "/api/blogs/trending"]
    key = cstr "blogs:guest:anonymous:/api/blogs" ∧
    globMatch (cstr "cache:*:*:/api/blogs*") key = false ∧
    store' = store ∧
    cacheGet store' key = some (cstr "stale-list-payload") ∧
    cacheMiddleware (some ⟨false, false, cacheGet store' key⟩) (cstr "fresh-list-payload")
      = Except.ok (cstr "stale-list-payload") := by
  exact ⟨by decide, by decide, by decide, by decide, by rfl⟩

/-- C2 (counterexample): two anonymous requests for the same route with the
same multiset of query parameters, differing only in parameter order,
receive different cache keys — `generateCacheKey` embeds `req.originalUrl`
verbatim and performs no query normalization. -/
theorem generateCacheKey_param_order_cex :
    let r1 : Request := { originalUrl := cstr "/api/blogs?page=1&limit=10", user := none }
    let r2 : Request := { originalUrl := cstr "/api/blogs?limit=10&page=1", user := none }
    urlPath r1.originalUrl = urlPath r2.originalUrl ∧
    (urlParams r1.originalUrl).Perm (urlParams r2.originalUrl) ∧
    r1.user = r2.user ∧
    generateCacheKey r1 (cstr "blogs") ≠ generateCacheKey r2 (cstr "blogs") := by
  decide

/-- C2 (amended): the Key Deriver is deterministic in the raw request —
requests with the same verbatim `originalUrl` and the same requester get
identical keys — and, for a fixed route/URL and role, two distinct
non-anonymous requester identities always get distinct keys.  Query
parameters are not normalized, so only byte-identical URLs collide. -/
theorem generateCacheKey_amended (pfx : List Char) :
    (∀ r1 r2 : Request, r1.originalUrl = r2.originalUrl → r1.user = r2.user →
      generateCacheKey r1 pfx = generateCacheKey r2 pfx) ∧
    (∀ (role id1 id2 url : List Char), id1 ≠ id2 →
      generateCacheKey ⟨url, some ⟨id1, role⟩⟩ pfx ≠
        generateCacheKey ⟨url, some ⟨id2, role⟩⟩ pfx) := by
  constructor
  · intro r1 r2 hurl huser
    cases r1
    cases r2
    simp_all [generateCacheKey]
  · intro role id1 id2 url hne heq
    simp only [generateCacheKey] at heq
    exact hne (List.append_cancel_left
      (List.append_cancel_right (List.append_cancel_right heq)))

/-- Witness for C2's amended theorem: two distinct authenticated users
requesting the same URL in the same role get distinct keys. -/
theorem generateCacheKey_amended_witness :
    generateCacheKey ⟨cstr "/api/blogs", some ⟨cstr "u1", cstr "user"⟩⟩ (cstr "blogs") ≠
      generateCacheKey ⟨cstr "/api/blogs", some ⟨cstr "u2", cstr "user"⟩⟩ (cstr "blogs") :=
  (generateCacheKey_amended (cstr "blogs")).2 (cstr "user") (cstr "u1") (cstr "u2")
    (cstr "/api/blogs") (by decide)

/-- C6 (counterexample): `getBlogs` performs no clamping.  A requested page
of 0 (below 1) produces the store window `skip = -10` for `pageSize = 10` —
not the `skip = 0` that clamping the page to 1 would give — and an
arbitrarily large `pageSize` is passed through to the store unchanged. -/
theorem buildBlogsQueryWindow_no_clamp_cex :
    (buildBlogsQueryWindow 0 10).skip = -10 ∧
    (buildBlogsQueryWindow 0 10).skip < 0 ∧
    (buildBlogsQueryWindow 0 10).skip ≠ (buildBlogsQueryWindow 1 10).skip ∧
    (buildBlogsQueryWindow 3 1000000).lim = 1000000 := by
  decide

/-- C6 (amended): the parsed page and pageSize reach the store descriptor
unclamped — the requested pageSize is used as is, and for a positive
pageSize the skip is negative exactly when the requested page is below 1. -/
theorem buildBlogsQueryWindow_amended (page lim : Int) (hl : 0 < lim) :
    (buildBlogsQueryWindow page lim).lim = lim ∧
    ((buildBlogsQueryWindow page lim).skip < 0 ↔ page < 1) := by
  refine ⟨rfl, ?_⟩
  show (page - 1) * lim < 0 ↔ page < 1
  rw [show (0 : Int) = 0 * lim by rw [Int.zero_mul], mul_lt_mul_right hl]
  omega

/-- Witness for C6's amended theorem at page 0, pageSize 10. -/
theorem buildBlogsQueryWindow_amended_witness :
    (buildBlogsQueryWindow 0 10).skip < 0 :=
  ((buildBlogsQueryWindow_amended 0 10 (by decide)).2).mpr (by decide)

/-- Membership is preserved by the insertion step of the score sort. -/
theorem mem_insertByScore {x y : ScoredBlog} {l : List ScoredBlog} :
    y ∈ insertByScore x l ↔ y = x ∨ y ∈ l := by
  induction l with
  | nil => simp [insertByScore]
  | cons z zs ih =>
    by_cases h : z.trendingScore ≤ x.trendingScore
    · simp [insertByScore, h]
    · simp [insertByScore, h, ih]
      tauto

/-- Membership is preserved by the score sort. -/
theorem mem_sortByScoreDesc {y : ScoredBlog} {l : List ScoredBlog} :
    y ∈ sortByScoreDesc l ↔ y ∈ l := by
  induction l with
  | nil => simp [sortByScoreDesc]
  | cons x xs ih => simp [sortByScoreDesc, mem_insertByScore, ih]

/-- Inserting into a list that is non-increasing in score keeps it
non-increasing. -/
theorem insertByScore_pairwise {x : ScoredBlog} {l : List ScoredBlog}
    (h : List.Pairwise (fun a b => b.trendingScore ≤ a.trendingScore) l) :
    List.Pairwise (fun a b => b.trendingScore ≤ a.trendingScore)
      (insertByScore x l) := by
  induction l with
  | nil => simp [insertByScore]
  | cons y ys ih =>
    rcases List.pairwise_cons.mp h with ⟨hy, hys⟩
    by_cases hc : y.trendingScore ≤ x.trendingScore
    · simp only [insertByScore, if_pos hc]
      refine List.pairwise_cons.mpr ⟨?_, h⟩
      intro z hz
      rcases List.mem_cons.mp hz with rfl | hz'
      · exact hc
      · exact le_trans (hy z hz') hc
    · simp only [insertByScore, if_neg hc]
      refine List.pairwise_cons.mpr ⟨?_, ih hys⟩
      intro z hz
      rcases mem_insertByScore.mp hz with rfl | hz'
      · exact le_of_not_le hc
      · exact hy z hz'

/-- The score sort produces a list that is non-increasing in
`trendingScore`. -/
theorem sortByScoreDesc_pairwise (l : List ScoredBlog) :
    List.Pairwise (fun a b => b.trendingScore ≤ a.trendingScore)
      (sortByScoreDesc l) := by
  induction l with
  | nil => simp [sortByScoreDesc]
  | cons x xs ih => exact insertByScore_pairwise ih

/-- The score sort preserves length (insertion step). -/
theorem length_insertByScore (x : ScoredBlog) (l : List ScoredBlog) :
    (insertByScore x l).length = l.length + 1 := by
  induction l with
  | nil => simp [insertByScore]
  | cons y ys ih =>
    by_cases hc : y.trendingScore ≤ x.trendingScore
    · simp [insertByScore, hc]
    · simp [insertByScore, hc, ih]

/-- The score sort preserves length. -/
theorem length_sortByScoreDesc (l : List ScoredBlog) :
    (sortByScoreDesc l).length = l.length := by
  induction l with
  | nil => rfl
  | cons x xs ih => simp [sortByScoreDesc, length_insertByScore, ih]

/-- Inserting an element of score `s` prepends it to the score-`s`
fibre: every element skipped over has a strictly larger score. -/
theorem filter_insertByScore_eq {x : ScoredBlog} {s : Nat}
    (hx : x.trendingScore = s) (l : List ScoredBlog) :
    (insertByScore x l).filter (fun z => z.trendingScore == s) =
      x :: l.filter (fun z => z.trendingScore == s) := by
  induction l with
  | nil => simp [insertByScore, hx]
  | cons y ys ih =>
    by_cases hc : y.trendingScore ≤ x.trendingScore
    · have hc' : y.trendingScore ≤ s := hx ▸ hc
      simp [insertByScore, hc, hc', List.filter_cons, hx]
    · have hy : ¬ y.trendingScore = s := by omega
      have hc' : ¬ y.trendingScore ≤ s := by omega
      simp [insertByScore, hc, hc', List.filter_cons, hy, ih]

/-- Inserting an element whose score is not `s` leaves the score-`s`
fibre unchanged. -/
theorem filter_insertByScore_ne {x : ScoredBlog} {s : Nat}
    (hx : ¬ x.trendingScore = s) (l : List ScoredBlog) :
    (insertByScore x l).filter (fun z => z.trendingScore == s) =
      l.filter (fun z => z.trendingScore == s) := by
  induction l with
  | nil => simp [insertByScore, hx]
  | cons y ys ih =>
    by_cases hc : y.trendingScore ≤ x.trendingScore
    · simp [insertByScore, hc, List.filter_cons, hx]
    · simp [insertByScore, hc, List.filter_cons, ih]

/-- Stability of the score sort: within any one score value the sort keeps
the input order — the `$sort` stage has no secondary key to reorder ties
by. -/
theorem filter_sortByScoreDesc (l : List ScoredBlog) (s : Nat) :
    (sortByScoreDesc l).filter (fun z => z.trendingScore == s) =
      l.filter (fun z => z.trendingScore == s) := by
  induction l with
  | nil => rfl
  | cons x xs ih =>
    by_cases hx : x.trendingScore = s
    · rw [sortByScoreDesc, filter_insertByScore_eq hx, ih]
      simp [List.filter_cons, hx]
    · rw [sortByScoreDesc, filter_insertByScore_ne hx, ih]
      simp [List.filter_cons, hx]

/-- C3 (counterexample): with the spec's own example — A with 100 views and
B with 10 likes and 5 comments, both scoring 100, B published more recently
— `findTrending` returns A before B when the store holds A first: the
`$sort` stage sorts on `trendingScore` alone and applies no `publishedAt`
tie-break, so the claim "the more recently published of A and B is returned
first" fails. -/
theorem findTrending_tie_not_by_recency :
    (addTrendingFields trendA).trendingScore = 100 ∧
    (addTrendingFields trendB).trendingScore = 100 ∧
    trendA.publishedAt = some 0 ∧
    trendB.publishedAt = some 5 ∧
    (findTrending [trendA, trendB] 2 7 5).map ScoredBlog.blog = [trendA, trendB] := by
  decide

/-- C3 (amended): `findTrending` returns a sequence non-increasing in
trending score and truncated to `limit`; ties in score are not broken by
`publishedAt` — within each score value the pre-truncation ordering is
exactly the underlying store order of the qualifying items. -/
theorem findTrending_sorted_desc_trunc (blogs : List BlogRec)
    (lim timeframe : Nat) (now : Int) :
    List.Pairwise (fun a b => b.trendingScore ≤ a.trendingScore)
      (findTrending blogs lim timeframe now) ∧
    (findTrending blogs lim timeframe now).length ≤ lim ∧
    ∀ s : Nat,
      (sortByScoreDesc ((blogs.filter (trendingQualifies timeframe now)).map
        addTrendingFields)).filter (fun z => z.trendingScore == s) =
      ((blogs.filter (trendingQualifies timeframe now)).map
        addTrendingFields).filter (fun z => z.trendingScore == s) := by
  refine ⟨?_, ?_, fun s => filter_sortByScoreDesc _ s⟩
  · exact List.Pairwise.sublist (List.take_sublist _ _) (sortByScoreDesc_pairwise _)
  · exact List.length_take_le _ _

/-- C4: every item `findTrending` returns is published with `publishedAt`
inside the trailing window and carries the score
`views*1 + likes*5 + comments*10`; and whenever the qualifying items fit
within `limit`, every published in-window item of the store is returned
(items outside the window or unpublished are excluded by the `$match`
stage regardless of their counters). -/
theorem findTrending_members (blogs : List BlogRec) (lim timeframe : Nat)
    (now : Int) :
    (∀ x ∈ findTrending blogs lim timeframe now,
      x.blog.status = BlogStatus.published ∧
      (∃ t, x.blog.publishedAt = some t ∧ now - (timeframe : Int) ≤ t) ∧
      x.trendingScore = x.blog.views * 1 + x.blog.likes.length * 5 +
        x.blog.comments.length * 10) ∧
    ((blogs.filter (trendingQualifies timeframe now)).length ≤ lim →
      ∀ b ∈ blogs, trendingQualifies timeframe now b = true →
        addTrendingFields b ∈ findTrending blogs lim timeframe now) := by
  constructor
  · intro x hx
    have hx' : x ∈ sortByScoreDesc ((blogs.filter
        (trendingQualifies timeframe now)).map addTrendingFields) :=
      List.mem_of_mem_take hx
    have hx'' := mem_sortByScoreDesc.mp hx'
    rcases List.mem_map.mp hx'' with ⟨b, hb, rfl⟩
    have hq : trendingQualifies timeframe now b = true :=
      (List.mem_filter.mp hb).2
    rw [trendingQualifies, Bool.and_eq_true] at hq
    rcases hq with ⟨hs, hw⟩
    refine ⟨by simpa [addTrendingFields] using of_decide_eq_true hs, ?_, ?_⟩
    · rcases hp : b.publishedAt with _ | t
      · rw [hp] at hw
        simp at hw
      · rw [hp] at hw
        exact ⟨t, by simp [addTrendingFields, hp], of_decide_eq_true hw⟩
    · simp [addTrendingFields]
  · intro hlen b hb hq
    have hmem : addTrendingFields b ∈ (blogs.filter
        (trendingQualifies timeframe now)).map addTrendingFields :=
      List.mem_map_of_mem _ (List.mem_filter.mpr ⟨hb, hq⟩)
    have h2 := mem_sortByScoreDesc.mpr hmem
    have hlen2 : (sortByScoreDesc ((blogs.filter
        (trendingQualifies timeframe now)).map addTrendingFields)).length ≤ lim := by
      rw [length_sortByScoreDesc, List.length_map]
      exact hlen
    rw [findTrending, List.take_of_length_le hlen2]
    exact h2

/-- Witness for C4: in the two-item store of the spec example, blog B
qualifies and is indeed returned by `findTrending`. -/
theorem findTrending_members_witness :
    addTrendingFields trendB ∈ findTrending [trendA, trendB] 2 7 5 :=
  (findTrending_members [trendA, trendB] 2 7 5).2 (by decide) trendB
    (by decide) (by decide)

/-- Characterization of `Math.ceil(total / limitNum)`: `jsCeil total limitNum`
is the least `m` with `total ≤ limitNum * m`. -/
theorem jsCeil_le_iff (total limitNum : Nat) (hl : 0 < limitNum) (m : Nat) :
    jsCeil total limitNum ≤ m ↔ total ≤ limitNum * m := by
  rw [jsCeil, Nat.div_le_iff_le_mul_add_pred hl]
  generalize limitNum * m = P
  omega

/-- C5: the pagination block of `getBlogs` satisfies the spec invariants:
`totalPages` is the ceiling of `totalCount / pageSize` (the least page
count whose capacity covers `totalCount`), `hasNextPage` holds exactly when
the current page is below `totalPages`, and `hasPrevPage` exactly when it
is above 1; the spec's example `(25, 10, 3)` instantiates to
`totalPages = 3`, `hasNextPage = false`, `hasPrevPage = true`. -/
theorem blogsPagination_spec (total limitNum : Nat) (page : Int)
    (hl : 0 < limitNum) (_hp : 1 ≤ page) :
    (total ≤ (blogsPagination total limitNum page).totalPages * limitNum ∧
      ∀ m : Nat, total ≤ m * limitNum →
        (blogsPagination total limitNum page).totalPages ≤ m) ∧
    ((blogsPagination total limitNum page).hasNextPage = true ↔
      page < ((blogsPagination total limitNum page).totalPages : Int)) ∧
    ((blogsPagination total limitNum page).hasPrevPage = true ↔ 1 < page) := by
  refine ⟨⟨?_, fun m hm => ?_⟩, ?_, ?_⟩
  · show total ≤ jsCeil total limitNum * limitNum
    rw [Nat.mul_comm]
    exact (jsCeil_le_iff total limitNum hl (jsCeil total limitNum)).mp le_rfl
  · show jsCeil total limitNum ≤ m
    exact (jsCeil_le_iff total limitNum hl m).mpr (by rwa [Nat.mul_comm] at hm)
  · simp [blogsPagination]
  · simp [blogsPagination]

/-- Witness for C5 at the spec's example `totalCount = 25`, `pageSize = 10`,
`currentPage = 3`. -/
theorem blogsPagination_spec_witness :
    (blogsPagination 25 10 3).totalPages = 3 ∧
    (blogsPagination 25 10 3).hasNextPage = false ∧
    (blogsPagination 25 10 3).hasPrevPage = true ∧
    25 ≤ (blogsPagination 25 10 3).totalPages * 10 :=
  ⟨by decide, by decide, by decide,
    (blogsPagination_spec 25 10 3 (by decide) (by decide)).1.1⟩

/-- The sanitizer's escaping is exactly inverted by the literal-pattern
reading of the regex: every escaped term parses as a pure-literal pattern
denoting the original characters — no metacharacter survives unescaped and
the pattern is always well formed (nothing for `new RegExp` to throw on). -/
theorem lexLiteral_escapeRegex (s : List Char) :
    lexLiteral (escapeRegex s) = some s := by
  induction s with
  | nil => rfl
  | cons c cs ih =>
    rw [lexLiteral] at ih ⊢
    by_cases hc : c ∈ regexMeta
    · simp [escapeRegex, hc, lexLit, ih]
    · have hb : ¬ c = '\\' := fun h => hc (h ▸ (by decide))
      simp [escapeRegex, hc, hb, lexLit, ih]

/-- C7: for every search term, the filter `getBlogs` builds matches exactly
the documents one of whose `title`, `content`, `excerpt`, `tags` entries or
`category` contains the (trimmed) term as a literal, case-insensitive
substring: the escaped pattern always parses as a pure-literal regex (so
`new RegExp` cannot throw and no metacharacter is interpreted), and the
test is case-folded substring containment. -/
theorem blogMatchesSearch_literal (term text : List Char) :
    lexLiteral (escapeRegex (trimStr term)) = some (trimStr term) ∧
    (searchRegexTest term text = true ↔
      List.IsInfix ((trimStr term).map Char.toLower) (text.map Char.toLower)) ∧
    ∀ b : BlogRec, blogMatchesSearch term b = true ↔
      (List.IsInfix ((trimStr term).map Char.toLower) (b.title.map Char.toLower) ∨
       List.IsInfix ((trimStr term).map Char.toLower) (b.content.map Char.toLower) ∨
       List.IsInfix ((trimStr term).map Char.toLower) (b.excerpt.map Char.toLower) ∨
       (∃ tag ∈ b.tags,
         List.IsInfix ((trimStr term).map Char.toLower) (tag.map Char.toLower)) ∨
       List.IsInfix ((trimStr term).map Char.toLower) (b.category.map Char.toLower)) := by
  have h := lexLiteral_escapeRegex (trimStr term)
  have htest : ∀ t : List Char, searchRegexTest term t = true ↔
      List.IsInfix ((trimStr term).map Char.toLower) (t.map Char.toLower) := by
    intro t
    simp [searchRegexTest, h, literalIMatch, decide_eq_true_iff]
  refine ⟨h, htest text, ?_⟩
  intro b
  simp only [blogMatchesSearch, Bool.or_eq_true, List.any_eq_true, htest, or_assoc]

/-- Witness for C7: the metacharacter-laden term of the spec example,
`c++`, matches text containing the literal substring (case-insensitively)
and its escaped pattern parses literally. -/
theorem blogMatchesSearch_literal_witness :
    searchRegexTest (cstr "c++") (cstr "I love C++ programming") = true :=
  (blogMatchesSearch_literal (cstr "c++") (cstr "I love C++ programming")).2.1.mpr
    (by decide)

/-- C8: whenever no fresh cached value is available — the Redis client is
absent, `get` raises, or the key is missing/expired (in which case the
`setEx` of the response may itself fail and is swallowed) — the read
returns exactly the downstream producer's payload with no observable
error. -/
theorem cacheMiddleware_degrades (client : Option RedisConn) (produce : List Char)
    (h : ∀ c, client = some c → c.getRaises = true ∨ c.stored = none) :
    cacheMiddleware client produce = Except.ok produce := by
  match client with
  | none => rfl
  | some c =>
    rcases h c rfl with hg | hs
    · simp [cacheMiddleware, redisGet, hg]
    · by_cases hg : c.getRaises
      · simp [cacheMiddleware, redisGet, hg]
      · simp [cacheMiddleware, redisGet, hg, hs]

/-- Witness for C8: a miss on a connection whose `setEx` raises still
returns the producer's payload. -/
theorem cacheMiddleware_degrades_witness :
    cacheMiddleware (some ⟨false, true, none⟩) (cstr "db-result") =
      Except.ok (cstr "db-result") :=
  cacheMiddleware_degrades (some ⟨false, true, none⟩) (cstr "db-result")
    (by intro c hc; cases hc; exact Or.inr rfl)

/-- When a document with the requested id exists, `findByIdAndUpdate` with
`$inc: views` returns it with the counter bumped and leaves it in the
store with the counter bumped. -/
theorem incViewsById_found {blogs : List BlogRec} {id : List Char} {b : BlogRec}
    (hb : findBlog blogs id = some b) :
    (incViewsById blogs id).2 = some { b with views := b.views + 1 } ∧
    findBlog (incViewsById blogs id).1 id = some { b with views := b.views + 1 } := by
  induction blogs with
  | nil => simp [findBlog] at hb
  | cons x xs ih =>
    by_cases hx : x.id = id
    · rw [findBlog, if_pos hx] at hb
      injection hb with hb
      subst hb
      refine ⟨by simp [incViewsById, hx], ?_⟩
      simp [incViewsById, hx, findBlog]
    · rw [findBlog, if_neg hx] at hb
      obtain ⟨h1, h2⟩ := ih hb
      refine ⟨by simp [incViewsById, hx, h1], ?_⟩
      simp [incViewsById, hx, findBlog, h2]

/-- The handler always responds with the store state produced by the view
increment, whatever branch it takes. -/
theorem getBlogById_fst (blogs : List BlogRec) (id : List Char)
    (user : Option UserInfo) :
    (getBlogById blogs id user).1 = (incViewsById blogs id).1 := by
  rw [getBlogById]
  cases h : (incViewsById blogs id).2 with
  | none => simp [h]
  | some blog =>
    simp only [h]
    split <;> rfl

/-- C9: when a blog with the requested id exists, `getBlogById` leaves its
view counter incremented by exactly one in the store — including the path
where it then responds 404 because the blog is not published and the
requester is absent or not its author (the `$inc` update precedes the
visibility check, so the store is not left unchanged on that error
path). -/
theorem getBlogById_increments (blogs : List BlogRec) (id : List Char)
    (user : Option UserInfo) (b : BlogRec)
    (hb : findBlog blogs id = some b) :
    findBlog (getBlogById blogs id user).1 id =
      some { b with views := b.views + 1 } ∧
    (b.status ≠ BlogStatus.published → (∀ u, user = some u → b.author ≠ u.id) →
      (getBlogById blogs id user).2 = BlogResp.notFound) := by
  obtain ⟨h2, h1⟩ := incViewsById_found hb
  constructor
  · rw [getBlogById_fst]
    exact h1
  · intro hs ho
    rw [getBlogById]
    simp only [h2]
    cases user with
    | none => simp [hs]
    | some u => simp [hs, ho u rfl]

/-- Witness for C9: reading the draft blog anonymously responds 404 yet
bumps its view counter from 3 to 4 in the store. -/
theorem getBlogById_increments_witness :
    findBlog (getBlogById [draftBlog] (cstr "D") none).1 (cstr "D") =
      some { draftBlog with views := draftBlog.views + 1 } ∧
    (getBlogById [draftBlog] (cstr "D") none).2 = BlogResp.notFound := by
  have h := getBlogById_increments [draftBlog] (cstr "D") none draftBlog (by decide)
  exact ⟨h.1, h.2 (by decide) (fun u hu => nomatch hu)⟩

/-- C10: when the `GET /api/blogs/:id` request hits a fresh cached entry,
the cached payload is returned as the response and neither the blog store
(in particular the view counter) nor the cache is modified — the
downstream handler is never invoked, so view counts move only on
cache-miss reads. -/
theorem runBlogByIdRoute_hit_frame (cacheStore : List (List Char × BlogResp))
    (blogs : List BlogRec) (req : Request) (id : List Char) (v : BlogResp)
    (hv : respCacheGet cacheStore (generateCacheKey req (cstr "blog")) = some v) :
    (runBlogByIdRoute true cacheStore blogs req id).blogs = blogs ∧
    (runBlogByIdRoute true cacheStore blogs req id).resp = v ∧
    (runBlogByIdRoute true cacheStore blogs req id).cacheStore = cacheStore := by
  simp [runBlogByIdRoute, hv]

/-- Witness for C10: an anonymous re-read of `/api/blogs/D` served from the
cache leaves the draft blog's store state (views = 3) untouched. -/
theorem runBlogByIdRoute_hit_frame_witness :
    (runBlogByIdRoute true
        [(cstr "blog:guest:anonymous:/api/blogs/D", BlogResp.notFound)]
        [draftBlog] ⟨cstr "/api/blogs/D", none⟩ (cstr "D")).blogs = [draftBlog] :=
  (runBlogByIdRoute_hit_frame
    [(cstr "blog:guest:anonymous:/api/blogs/D", BlogResp.notFound)]
    [draftBlog] ⟨cstr "/api/blogs/D", none⟩ (cstr "D") BlogResp.notFound
    (by decide)).1
